import Mathlib

/-!
Shallow embedding of the ZIP/EPUB container writer of `src/main.js`
(functions `createZipBuffer`, `crc32`, `getCrc32Table`), together with
theorems settling the specification claims about it.

Modelling conventions:
* A Node `Buffer` is a `List Nat` of byte values.
* JavaScript 32-bit bitwise arithmetic (`>>>`, `^`, `&`) on the CRC
  accumulator is modelled on `Nat`: the accumulator always denotes the
  unsigned 32-bit pattern, `x >>> 8` is `x / 256`, `x >>> 1` is `x / 2`,
  `x & 0xFF` is `x % 256`, `^` is `Nat.xor`.  All values stay below
  `2 ^ 32` (proved below), so this is the bit-exact unsigned reading of
  the JavaScript int32 patterns.
* `zlib.deflateRawSync` is an external library call; it is abstracted as
  a parameter `deflate : List Nat → Option (List Nat)`, where `none`
  models the call raising an exception.  The source has no try/catch
  around the call, so a `none` propagates out of `createZipBuffer`.
* `Buffer.writeUInt16LE` / `Buffer.writeUInt32LE` raise `ERR_OUT_OF_RANGE`
  when the value does not fit the field; the writes of one header are
  modelled by a single range guard over all written values (the header is
  produced exactly when every write is in range, `none` otherwise, which
  is observationally the JavaScript behaviour of throwing).
-/

namespace Noatboat

/-- Byte of a buffer at an index, 0 past the end (JavaScript `buffer[i]`
on a `Buffer` never yields past-the-end reads in the modelled code; the
default only makes the reader total). -/
def byteAt : List Nat → Nat → Nat
  | [], _ => 0
  | b :: _, 0 => b
  | _ :: l, n + 1 => byteAt l n

/-- The two little-endian bytes written by `Buffer.writeUInt16LE`. -/
def u16bytes (v : Nat) : List Nat := [v % 256, v / 256 % 256]

/-- The four little-endian bytes written by `Buffer.writeUInt32LE`. -/
def u32bytes (v : Nat) : List Nat :=
  [v % 256, v / 256 % 256, v / 65536 % 256, v / 16777216 % 256]

/-- Little-endian 16-bit read at a byte offset (reader's view of a field). -/
def readUInt16LE (l : List Nat) (i : Nat) : Nat :=
  byteAt l i + 256 * byteAt l (i + 1)

/-- Little-endian 32-bit read at a byte offset (reader's view of a field). -/
def readUInt32LE (l : List Nat) (i : Nat) : Nat :=
  byteAt l i + 256 * byteAt l (i + 1) + 65536 * byteAt l (i + 2) +
    16777216 * byteAt l (i + 3)

/-- One round of the CRC-32 table generation loop of `getCrc32Table`:
`c = (c & 1) ? (0xEDB88320 ^ (c >>> 1)) : (c >>> 1)`. -/
def crcStep (c : Nat) : Nat :=
  if c % 2 = 1 then 0xEDB88320 ^^^ (c / 2) else c / 2

/-- Entry `i` of the CRC-32 table built by `getCrc32Table`: eight rounds
of `crcStep` starting from `i`. -/
def crcTableEntry (i : Nat) : Nat := crcStep^[8] i

/-- Per-byte accumulator update of `crc32`:
`crc = (crc >>> 8) ^ table[(crc ^ buffer[i]) & 0xFF]`. -/
def crc32Update (crc b : Nat) : Nat :=
  (crc / 256) ^^^ crcTableEntry ((crc ^^^ b) % 256)

/-- The `crc32` function of `src/main.js`: fold the update over the bytes
starting from `0xFFFFFFFF`, then XOR with `0xFFFFFFFF`
(`(crc ^ 0xFFFFFFFF) >>> 0`). -/
def crc32 (buffer : List Nat) : Nat :=
  (buffer.foldl crc32Update 0xFFFFFFFF) ^^^ 0xFFFFFFFF

/-- One entry handed to `createZipBuffer`: `name` is the UTF-8 byte
encoding of the file name (`Buffer.from(file.name, 'utf8')`), `data` the
payload bytes, `compress` the compression flag. -/
structure ZipFile where
  name : List Nat
  data : List Nat
  compress : Bool

/-- The 30-byte local file header plus the name bytes, as written by the
sequence of `localHeader.writeUInt*LE` calls and the `nameBuffer.copy`
in `createZipBuffer`. -/
def mkLocalHeader (method crc csize usize : Nat) (name : List Nat) : List Nat :=
  u32bytes 0x04034b50 ++   -- signature
  u16bytes 20 ++           -- version needed
  u16bytes 0 ++            -- flags
  u16bytes method ++       -- compression
  u16bytes 0 ++            -- mod time
  u16bytes 0 ++            -- mod date
  u32bytes crc ++          -- crc32
  u32bytes csize ++        -- compressed size
  u32bytes usize ++        -- uncompressed size
  u16bytes name.length ++  -- name length
  u16bytes 0 ++            -- extra length
  name

/-- The 46-byte central directory header plus the name bytes, as written
by the sequence of `centralHeader.writeUInt*LE` calls in
`createZipBuffer`. -/
def mkCentralHeader (method crc csize usize : Nat) (name : List Nat)
    (offset : Nat) : List Nat :=
  u32bytes 0x02014b50 ++   -- signature
  u16bytes 20 ++           -- version made by
  u16bytes 20 ++           -- version needed
  u16bytes 0 ++            -- flags
  u16bytes method ++       -- compression
  u16bytes 0 ++            -- mod time
  u16bytes 0 ++            -- mod date
  u32bytes crc ++          -- crc32
  u32bytes csize ++        -- compressed size
  u32bytes usize ++        -- uncompressed size
  u16bytes name.length ++  -- name length
  u16bytes 0 ++            -- extra length
  u16bytes 0 ++            -- comment length
  u16bytes 0 ++            -- disk number
  u16bytes 0 ++            -- internal attr
  u32bytes 0 ++            -- external attr
  u32bytes offset ++       -- local header offset
  name

/-- The 22-byte end-of-central-directory record written at the end of
`createZipBuffer`. -/
def mkEOCD (count csize coff : Nat) : List Nat :=
  u32bytes 0x06054b50 ++   -- signature
  u16bytes 0 ++            -- disk number
  u16bytes 0 ++            -- disk with central dir
  u16bytes count ++        -- entries on disk
  u16bytes count ++        -- total entries
  u32bytes csize ++        -- central dir size
  u32bytes coff ++         -- central dir offset
  u16bytes 0               -- comment length

/-- The body of the `for (const file of files)` loop of `createZipBuffer`
for one entry at byte offset `offset`: deflate when asked (no try/catch
in the source, so a deflate failure is `none`), keep the compressed
candidate only when strictly smaller, CRC the original payload, and
build the local and central headers.  The range guard models the
`writeUInt16LE`/`writeUInt32LE` range checks of every non-constant field
written for this entry.  Returns (local header, stored bytes, central
header). -/
def processEntry (deflate : List Nat → Option (List Nat)) (offset : Nat)
    (f : ZipFile) : Option (List Nat × List Nat × List Nat) :=
  match (if f.compress then deflate f.data else some f.data) with
  | none => none
  | some compressed =>
    -- `useCompression` of the source is
    -- `f.compress = true ∧ compressed.length < f.data.length`,
    -- `finalData` is `compressed` when it holds and `f.data` otherwise.
    if crc32 f.data < 2 ^ 32 ∧
        (if f.compress = true ∧ compressed.length < f.data.length then
          compressed else f.data).length < 2 ^ 32 ∧
        f.data.length < 2 ^ 32 ∧ f.name.length < 2 ^ 16 ∧ offset < 2 ^ 32 then
      some (mkLocalHeader
              (if f.compress = true ∧ compressed.length < f.data.length then 8 else 0)
              (crc32 f.data)
              (if f.compress = true ∧ compressed.length < f.data.length then
                compressed else f.data).length
              f.data.length f.name,
            (if f.compress = true ∧ compressed.length < f.data.length then
              compressed else f.data),
            mkCentralHeader
              (if f.compress = true ∧ compressed.length < f.data.length then 8 else 0)
              (crc32 f.data)
              (if f.compress = true ∧ compressed.length < f.data.length then
                compressed else f.data).length
              f.data.length f.name offset)
    else none

/-- The entry loop of `createZipBuffer`: processes the entries in order,
accumulating the byte offset (`offset += localHeader.length +
finalData.length`).  Returns the (local header, stored bytes) pairs, the
central directory headers, and the final offset. -/
def zipLoop (deflate : List Nat → Option (List Nat)) :
    List ZipFile → Nat →
    Option (List (List Nat × List Nat) × List (List Nat) × Nat)
  | [], offset => some ([], [], offset)
  | f :: rest, offset =>
    match processEntry deflate offset f with
    | none => none
    | some (lh, fd, ch) =>
      match zipLoop deflate rest (offset + (lh.length + fd.length)) with
      | none => none
      | some (pairs, centrals, final) =>
        some ((lh, fd) :: pairs, ch :: centrals, final)

/-- The `createZipBuffer` function of `src/main.js`, with
`zlib.deflateRawSync` abstracted as `deflate`.  Runs the entry loop from
offset 0, then builds the end-of-central-directory record (its guard
models the range checks of the EOCD `writeUInt*LE` calls) and
concatenates all parts in source order. -/
def createZipBuffer (deflate : List Nat → Option (List Nat))
    (files : List ZipFile) : Option (List Nat) :=
  match zipLoop deflate files 0 with
  | none => none
  | some (pairs, centrals, centralOffset) =>
    -- `centralSize` of the source is `(centrals.map List.length).sum`.
    if files.length < 2 ^ 16 ∧ (centrals.map List.length).sum < 2 ^ 32 ∧
        centralOffset < 2 ^ 32 then
      some ((pairs.map fun p => p.1 ++ p.2).flatten ++ centrals.flatten ++
              mkEOCD files.length ((centrals.map List.length).sum) centralOffset)
    else none

/-! Field-read lemmas: reading a header field back at its byte offset
recovers the written value, provided the value fit the field (which the
range guards of the builders enforce). -/

theorem byteAt_append_left (a b : List Nat) (i : Nat) (h : i < a.length) :
    byteAt (a ++ b) i = byteAt a i := by
  induction a generalizing i with
  | nil => simp at h
  | cons x xs ih =>
    cases i with
    | zero => rfl
    | succ n =>
      simp only [List.cons_append, byteAt]
      exact ih n (by simpa using h)

theorem readUInt16LE_append_left (a b : List Nat) (i : Nat)
    (h : i + 1 < a.length) :
    readUInt16LE (a ++ b) i = readUInt16LE a i := by
  unfold readUInt16LE
  rw [byteAt_append_left a b i (by omega), byteAt_append_left a b (i + 1) h]

theorem readUInt32LE_append_left (a b : List Nat) (i : Nat)
    (h : i + 3 < a.length) :
    readUInt32LE (a ++ b) i = readUInt32LE a i := by
  unfold readUInt32LE
  rw [byteAt_append_left a b i (by omega), byteAt_append_left a b (i + 1) (by omega),
      byteAt_append_left a b (i + 2) (by omega), byteAt_append_left a b (i + 3) h]

theorem localHeader_eq (m c cs us : Nat) (nm : List Nat) :
    mkLocalHeader m c cs us nm =
      80 :: 75 :: 3 :: 4 :: 20 :: 0 :: 0 :: 0 ::
      (m % 256) :: (m / 256 % 256) :: 0 :: 0 :: 0 :: 0 ::
      (c % 256) :: (c / 256 % 256) :: (c / 65536 % 256) :: (c / 16777216 % 256) ::
      (cs % 256) :: (cs / 256 % 256) :: (cs / 65536 % 256) :: (cs / 16777216 % 256) ::
      (us % 256) :: (us / 256 % 256) :: (us / 65536 % 256) :: (us / 16777216 % 256) ::
      (nm.length % 256) :: (nm.length / 256 % 256) :: 0 :: 0 :: nm := by
  simp [mkLocalHeader, u16bytes, u32bytes]

theorem centralHeader_eq (m c cs us : Nat) (nm : List Nat) (off : Nat) :
    mkCentralHeader m c cs us nm off =
      80 :: 75 :: 1 :: 2 :: 20 :: 0 :: 20 :: 0 :: 0 :: 0 ::
      (m % 256) :: (m / 256 % 256) :: 0 :: 0 :: 0 :: 0 ::
      (c % 256) :: (c / 256 % 256) :: (c / 65536 % 256) :: (c / 16777216 % 256) ::
      (cs % 256) :: (cs / 256 % 256) :: (cs / 65536 % 256) :: (cs / 16777216 % 256) ::
      (us % 256) :: (us / 256 % 256) :: (us / 65536 % 256) :: (us / 16777216 % 256) ::
      (nm.length % 256) :: (nm.length / 256 % 256) :: 0 :: 0 :: 0 :: 0 :: 0 :: 0 ::
      0 :: 0 :: 0 :: 0 :: 0 :: 0 ::
      (off % 256) :: (off / 256 % 256) :: (off / 65536 % 256) :: (off / 16777216 % 256) ::
      nm := by
  simp [mkCentralHeader, u16bytes, u32bytes]

theorem eocd_eq (cnt cs co : Nat) :
    mkEOCD cnt cs co =
      [80, 75, 5, 6, 0, 0, 0, 0,
       cnt % 256, cnt / 256 % 256, cnt % 256, cnt / 256 % 256,
       cs % 256, cs / 256 % 256, cs / 65536 % 256, cs / 16777216 % 256,
       co % 256, co / 256 % 256, co / 65536 % 256, co / 16777216 % 256,
       0, 0] := by
  simp [mkEOCD, u16bytes, u32bytes]

theorem localHeader_length (m c cs us : Nat) (nm : List Nat) :
    (mkLocalHeader m c cs us nm).length = 30 + nm.length := by
  rw [localHeader_eq]; simp; omega

theorem centralHeader_length (m c cs us : Nat) (nm : List Nat) (off : Nat) :
    (mkCentralHeader m c cs us nm off).length = 46 + nm.length := by
  rw [centralHeader_eq]; simp; omega

theorem eocd_length (cnt cs co : Nat) : (mkEOCD cnt cs co).length = 22 := by
  rw [eocd_eq]; rfl

theorem localHeader_sig (m c cs us : Nat) (nm : List Nat) :
    readUInt32LE (mkLocalHeader m c cs us nm) 0 = 0x04034b50 := by
  have h0 : readUInt32LE (mkLocalHeader m c cs us nm) 0 =
      80 + 256 * 75 + 65536 * 3 + 16777216 * 4 := by
    rw [localHeader_eq]; rfl
  omega

theorem localHeader_method (m c cs us : Nat) (nm : List Nat)
    (h : m < 2 ^ 16) : readUInt16LE (mkLocalHeader m c cs us nm) 8 = m := by
  have h0 : readUInt16LE (mkLocalHeader m c cs us nm) 8 =
      m % 256 + 256 * (m / 256 % 256) := by rw [localHeader_eq]; rfl
  omega

theorem localHeader_crc (m c cs us : Nat) (nm : List Nat)
    (h : c < 2 ^ 32) : readUInt32LE (mkLocalHeader m c cs us nm) 14 = c := by
  have h0 : readUInt32LE (mkLocalHeader m c cs us nm) 14 =
      c % 256 + 256 * (c / 256 % 256) + 65536 * (c / 65536 % 256) +
        16777216 * (c / 16777216 % 256) := by rw [localHeader_eq]; rfl
  omega

theorem localHeader_csize (m c cs us : Nat) (nm : List Nat)
    (h : cs < 2 ^ 32) : readUInt32LE (mkLocalHeader m c cs us nm) 18 = cs := by
  have h0 : readUInt32LE (mkLocalHeader m c cs us nm) 18 =
      cs % 256 + 256 * (cs / 256 % 256) + 65536 * (cs / 65536 % 256) +
        16777216 * (cs / 16777216 % 256) := by rw [localHeader_eq]; rfl
  omega

theorem localHeader_usize (m c cs us : Nat) (nm : List Nat)
    (h : us < 2 ^ 32) : readUInt32LE (mkLocalHeader m c cs us nm) 22 = us := by
  have h0 : readUInt32LE (mkLocalHeader m c cs us nm) 22 =
      us % 256 + 256 * (us / 256 % 256) + 65536 * (us / 65536 % 256) +
        16777216 * (us / 16777216 % 256) := by rw [localHeader_eq]; rfl
  omega

theorem localHeader_namelen (m c cs us : Nat) (nm : List Nat)
    (h : nm.length < 2 ^ 16) :
    readUInt16LE (mkLocalHeader m c cs us nm) 26 = nm.length := by
  have h0 : readUInt16LE (mkLocalHeader m c cs us nm) 26 =
      nm.length % 256 + 256 * (nm.length / 256 % 256) := by
    rw [localHeader_eq]; rfl
  omega

theorem localHeader_name (m c cs us : Nat) (nm : List Nat) :
    (mkLocalHeader m c cs us nm).drop 30 = nm := by
  rw [localHeader_eq]; rfl

theorem centralHeader_method (m c cs us : Nat) (nm : List Nat) (off : Nat)
    (h : m < 2 ^ 16) :
    readUInt16LE (mkCentralHeader m c cs us nm off) 10 = m := by
  have h0 : readUInt16LE (mkCentralHeader m c cs us nm off) 10 =
      m % 256 + 256 * (m / 256 % 256) := by rw [centralHeader_eq]; rfl
  omega

theorem centralHeader_crc (m c cs us : Nat) (nm : List Nat) (off : Nat)
    (h : c < 2 ^ 32) :
    readUInt32LE (mkCentralHeader m c cs us nm off) 16 = c := by
  have h0 : readUInt32LE (mkCentralHeader m c cs us nm off) 16 =
      c % 256 + 256 * (c / 256 % 256) + 65536 * (c / 65536 % 256) +
        16777216 * (c / 16777216 % 256) := by rw [centralHeader_eq]; rfl
  omega

theorem centralHeader_csize (m c cs us : Nat) (nm : List Nat) (off : Nat)
    (h : cs < 2 ^ 32) :
    readUInt32LE (mkCentralHeader m c cs us nm off) 20 = cs := by
  have h0 : readUInt32LE (mkCentralHeader m c cs us nm off) 20 =
      cs % 256 + 256 * (cs / 256 % 256) + 65536 * (cs / 65536 % 256) +
        16777216 * (cs / 16777216 % 256) := by rw [centralHeader_eq]; rfl
  omega

theorem centralHeader_usize (m c cs us : Nat) (nm : List Nat) (off : Nat)
    (h : us < 2 ^ 32) :
    readUInt32LE (mkCentralHeader m c cs us nm off) 24 = us := by
  have h0 : readUInt32LE (mkCentralHeader m c cs us nm off) 24 =
      us % 256 + 256 * (us / 256 % 256) + 65536 * (us / 65536 % 256) +
        16777216 * (us / 16777216 % 256) := by rw [centralHeader_eq]; rfl
  omega

theorem centralHeader_namelen (m c cs us : Nat) (nm : List Nat) (off : Nat)
    (h : nm.length < 2 ^ 16) :
    readUInt16LE (mkCentralHeader m c cs us nm off) 28 = nm.length := by
  have h0 : readUInt16LE (mkCentralHeader m c cs us nm off) 28 =
      nm.length % 256 + 256 * (nm.length / 256 % 256) := by
    rw [centralHeader_eq]; rfl
  omega

theorem centralHeader_offset (m c cs us : Nat) (nm : List Nat) (off : Nat)
    (h : off < 2 ^ 32) :
    readUInt32LE (mkCentralHeader m c cs us nm off) 42 = off := by
  have h0 : readUInt32LE (mkCentralHeader m c cs us nm off) 42 =
      off % 256 + 256 * (off / 256 % 256) + 65536 * (off / 65536 % 256) +
        16777216 * (off / 16777216 % 256) := by rw [centralHeader_eq]; rfl
  omega

theorem centralHeader_name (m c cs us : Nat) (nm : List Nat) (off : Nat) :
    (mkCentralHeader m c cs us nm off).drop 46 = nm := by
  rw [centralHeader_eq]; rfl

/-! Bounds: every CRC-32 value is an unsigned 32-bit integer. -/

theorem crcStep_lt (c : Nat) (h : c < 2 ^ 32) : crcStep c < 2 ^ 32 := by
  unfold crcStep
  split
  · exact Nat.xor_lt_two_pow (by norm_num) (by omega)
  · omega

theorem crcTableEntry_lt (i : Nat) (h : i < 256) : crcTableEntry i < 2 ^ 32 := by
  have step : ∀ n c, c < 2 ^ 32 → crcStep^[n] c < 2 ^ 32 := by
    intro n
    induction n with
    | zero => intro c hc; simpa using hc
    | succ k ih =>
      intro c hc
      rw [Function.iterate_succ_apply]
      exact ih _ (crcStep_lt c hc)
  exact step 8 i (by omega)

theorem crc32Update_lt (crc b : Nat) (h : crc < 2 ^ 32) :
    crc32Update crc b < 2 ^ 32 := by
  unfold crc32Update
  exact Nat.xor_lt_two_pow (by omega)
    (crcTableEntry_lt _ (Nat.mod_lt _ (by norm_num)))

theorem crc32_foldl_lt (bs : List Nat) (acc : Nat) (h : acc < 2 ^ 32) :
    bs.foldl crc32Update acc < 2 ^ 32 := by
  induction bs generalizing acc with
  | nil => simpa using h
  | cons b rest ih => exact ih _ (crc32Update_lt acc b h)

theorem crc32_lt (bs : List Nat) : crc32 bs < 2 ^ 32 := by
  unfold crc32
  exact Nat.xor_lt_two_pow (crc32_foldl_lt bs _ (by norm_num)) (by norm_num)

/-! Reference CRC-32, written from the specification's words, for the
refinement claim C1. -/

/-- Spec reference, one table round: "8 times: if the low bit of the
running value is set, XOR `(value >> 1)` with `0xEDB88320`; otherwise
just shift right by 1". -/
def crc32SpecStep (c : Nat) : Nat :=
  if c % 2 = 1 then (c / 2) ^^^ 0xEDB88320 else c / 2

/-- Spec reference table: "a table of 256 32-bit values: for each byte
value `i` from 0–255", eight rounds starting from `i`. -/
def crc32SpecTable : List Nat :=
  (List.range 256).map fun i => crc32SpecStep^[8] i

/-- Spec reference per-byte update:
"accumulator = (accumulator >> 8) XOR table[(accumulator XOR byte) & 0xFF]". -/
def crc32SpecUpdate (acc b : Nat) : Nat :=
  (acc / 256) ^^^ crc32SpecTable.getD ((acc ^^^ b) % 256) 0

/-- Spec reference CRC-32: accumulator starts at `0xFFFFFFFF`, is updated
for each input byte, and the result is the accumulator XOR `0xFFFFFFFF`. -/
def crc32Spec (bs : List Nat) : Nat :=
  (bs.foldl crc32SpecUpdate 0xFFFFFFFF) ^^^ 0xFFFFFFFF

theorem crcStep_eq_spec (c : Nat) : crcStep c = crc32SpecStep c := by
  unfold crcStep crc32SpecStep
  split
  · exact Nat.xor_comm _ _
  · rfl

theorem crcTable_eq_spec (i : Nat) (h : i < 256) :
    crc32SpecTable.getD i 0 = crcTableEntry i := by
  have hfun : crcStep = crc32SpecStep := funext crcStep_eq_spec
  unfold crc32SpecTable crcTableEntry
  rw [List.getD_eq_getElem?_getD, List.getElem?_map, List.getElem?_range h]
  simp [hfun]

theorem crc32Update_eq_spec (acc b : Nat) :
    crc32Update acc b = crc32SpecUpdate acc b := by
  unfold crc32Update crc32SpecUpdate
  rw [crcTable_eq_spec _ (Nat.mod_lt _ (by norm_num))]

/-- C1: the `crc32` of `src/main.js` is the table-driven IEEE CRC-32 of
the specification: for every byte sequence it equals the reference
definition `crc32Spec` written from the specification's words. -/
theorem claim_C1 (bs : List Nat) : crc32 bs = crc32Spec bs := by
  have hfun : crc32Update = crc32SpecUpdate :=
    funext fun acc => funext fun b => crc32Update_eq_spec acc b
  unfold crc32 crc32Spec
  rw [hfun]

/-- C9: `crc32` is a total function on byte sequences (its result is a
well-defined unsigned 32-bit value, below `2 ^ 32`, for every input, with
no error condition), and the CRC of the empty sequence is `0x00000000`. -/
theorem claim_C9 : crc32 [] = 0 ∧ ∀ bs : List Nat, crc32 bs < 2 ^ 32 := by
  constructor
  · show List.foldl crc32Update 0xFFFFFFFF [] ^^^ 0xFFFFFFFF = 0
    rw [List.foldl_nil, Nat.xor_self]
  · exact crc32_lt

/-- C8: on the empty entry list, `createZipBuffer` returns exactly the
22-byte end-of-central-directory record with both entry counts 0,
central directory size 0 and central directory offset 0. -/
theorem claim_C8 (deflate : List Nat → Option (List Nat)) :
    createZipBuffer deflate [] = some (mkEOCD 0 0 0) ∧
    (mkEOCD 0 0 0).length = 22 ∧
    readUInt32LE (mkEOCD 0 0 0) 0 = 0x06054b50 ∧
    readUInt16LE (mkEOCD 0 0 0) 8 = 0 ∧
    readUInt16LE (mkEOCD 0 0 0) 10 = 0 ∧
    readUInt32LE (mkEOCD 0 0 0) 12 = 0 ∧
    readUInt32LE (mkEOCD 0 0 0) 16 = 0 := by
  refine ⟨?_, eocd_length 0 0 0, ?_, ?_, ?_, ?_, ?_⟩
  · simp [createZipBuffer, zipLoop]
  · have h0 : readUInt32LE (mkEOCD 0 0 0) 0 =
        80 + 256 * 75 + 65536 * 5 + 16777216 * 6 := by rw [eocd_eq]; rfl
    omega
  · have h0 : readUInt16LE (mkEOCD 0 0 0) 8 = 0 % 256 + 256 * (0 / 256 % 256) := by
      rw [eocd_eq]; rfl
    omega
  · have h0 : readUInt16LE (mkEOCD 0 0 0) 10 = 0 % 256 + 256 * (0 / 256 % 256) := by
      rw [eocd_eq]; rfl
    omega
  · have h0 : readUInt32LE (mkEOCD 0 0 0) 12 = 0 % 256 + 256 * (0 / 256 % 256) +
        65536 * (0 / 65536 % 256) + 16777216 * (0 / 16777216 % 256) := by
      rw [eocd_eq]; rfl
    omega
  · have h0 : readUInt32LE (mkEOCD 0 0 0) 16 = 0 % 256 + 256 * (0 / 256 % 256) +
        65536 * (0 / 65536 % 256) + 16777216 * (0 / 16777216 % 256) := by
      rw [eocd_eq]; rfl
    omega

/-! Inversion of the per-entry processing: what a successful entry looks
like, and under what conditions the entry fails. -/

theorem processEntry_some {deflate : List Nat → Option (List Nat)}
    {off : Nat} {f : ZipFile} {lh fd ch : List Nat}
    (h : processEntry deflate off f = some (lh, fd, ch)) :
    ∃ compressed,
      (if f.compress then deflate f.data else some f.data) = some compressed ∧
      fd = (if f.compress = true ∧ compressed.length < f.data.length then
              compressed else f.data) ∧
      lh = mkLocalHeader
        (if f.compress = true ∧ compressed.length < f.data.length then 8 else 0)
        (crc32 f.data) fd.length f.data.length f.name ∧
      ch = mkCentralHeader
        (if f.compress = true ∧ compressed.length < f.data.length then 8 else 0)
        (crc32 f.data) fd.length f.data.length f.name off ∧
      fd.length < 2 ^ 32 ∧ f.data.length < 2 ^ 32 ∧
      f.name.length < 2 ^ 16 ∧ off < 2 ^ 32 := by
  unfold processEntry at h
  split at h
  next => exact Option.noConfusion h
  next compressed hm =>
    refine ⟨compressed, hm, ?_⟩
    by_cases huse : f.compress = true ∧ compressed.length < f.data.length
    · simp only [if_pos huse] at h ⊢
      split at h
      next hg =>
        simp only [Option.some.injEq, Prod.mk.injEq] at h
        obtain ⟨hlh, hfd, hch⟩ := h
        subst hfd
        exact ⟨rfl, hlh.symm, hch.symm,
          hg.2.1, hg.2.2.1, hg.2.2.2.1, hg.2.2.2.2⟩
      next => exact Option.noConfusion h
    · simp only [if_neg huse] at h ⊢
      split at h
      next hg =>
        simp only [Option.some.injEq, Prod.mk.injEq] at h
        obtain ⟨hlh, hfd, hch⟩ := h
        subst hfd
        exact ⟨rfl, hlh.symm, hch.symm,
          hg.2.1, hg.2.2.1, hg.2.2.2.1, hg.2.2.2.2⟩
      next => exact Option.noConfusion h

theorem processEntry_none_of_deflate_fail {deflate : List Nat → Option (List Nat)}
    {off : Nat} {f : ZipFile} (hc : f.compress = true)
    (hd : deflate f.data = none) : processEntry deflate off f = none := by
  unfold processEntry
  rw [hc, if_pos rfl, hd]

theorem processEntry_none_of_long_name {deflate : List Nat → Option (List Nat)}
    {off : Nat} {f : ZipFile} (hn : f.name.length > 65535) :
    processEntry deflate off f = none := by
  unfold processEntry
  split
  next => rfl
  next compressed hm =>
    rw [if_neg]
    rintro ⟨-, -, -, hlen, -⟩
    omega

theorem zipLoop_none_of_entry_none {deflate : List Nat → Option (List Nat)}
    {f : ZipFile} (hf : ∀ off, processEntry deflate off f = none) :
    ∀ files off0, f ∈ files → zipLoop deflate files off0 = none := by
  intro files
  induction files with
  | nil => intro off0 hmem; exact absurd hmem (List.not_mem_nil f)
  | cons g rest ih =>
    intro off0 hmem
    rcases List.mem_cons.mp hmem with hfg | hmem'
    · subst hfg
      unfold zipLoop
      rw [hf off0]
    · unfold zipLoop
      split
      next => rfl
      next lh fd ch hpe =>
        rw [ih _ hmem']

theorem createZipBuffer_none_of_zipLoop_none
    {deflate : List Nat → Option (List Nat)} {files : List ZipFile}
    (h : zipLoop deflate files 0 = none) :
    createZipBuffer deflate files = none := by
  unfold createZipBuffer
  rw [h]

/-- C2 counterexample: with a DEFLATE implementation that fails (raises)
on the single compress-true entry, `createZipBuffer` returns no archive
at all — it does not fall back to storing the entry uncompressed. -/
theorem claim_C2_counterexample :
    createZipBuffer (fun _ => none) [⟨[97], [0], true⟩] = none := rfl

/-- C2 (amended): if the DEFLATE implementation fails on any entry whose
compress flag is true, the failure propagates out of `createZipBuffer`
and no archive is returned; the source has no try/catch around
`zlib.deflateRawSync`, so a single entry's compression failure aborts
the whole archive operation. -/
theorem claim_C2 (deflate : List Nat → Option (List Nat))
    (files : List ZipFile) (f : ZipFile) (hf : f ∈ files)
    (hc : f.compress = true) (hd : deflate f.data = none) :
    createZipBuffer deflate files = none :=
  createZipBuffer_none_of_zipLoop_none
    (zipLoop_none_of_entry_none
      (fun _ => processEntry_none_of_deflate_fail hc hd) files 0 hf)

/-- C2 witness: a concrete two-entry archive where deflate fails on the
second (compress-true) entry; the whole operation returns `none`. -/
theorem claim_C2_witness :
    createZipBuffer (fun _ => none)
      [⟨[97], [], false⟩, ⟨[98], [0, 1], true⟩] = none :=
  claim_C2 (fun _ => none) [⟨[97], [], false⟩, ⟨[98], [0, 1], true⟩]
    ⟨[98], [0, 1], true⟩ (List.mem_cons_of_mem _ (List.mem_cons_self _ _))
    rfl rfl

/-- C10: when a 16-bit header field is out of range — more than 65535
entries (EOCD entry counts) or an entry name longer than 65535 bytes
(name-length fields) — `createZipBuffer` fails with the buffer-write
range error instead of returning any (possibly wrapped or truncated)
archive buffer. -/
theorem claim_C10 (deflate : List Nat → Option (List Nat))
    (files : List ZipFile) :
    (files.length > 65535 → createZipBuffer deflate files = none) ∧
    (∀ f ∈ files, f.name.length > 65535 →
      createZipBuffer deflate files = none) := by
  constructor
  · intro hlen
    unfold createZipBuffer
    split
    next => rfl
    next pairs centrals coff hz =>
      rw [if_neg]
      rintro ⟨hcount, -, -⟩
      omega
  · intro f hmem hname
    exact createZipBuffer_none_of_zipLoop_none
      (zipLoop_none_of_entry_none
        (fun _ => processEntry_none_of_long_name hname) files 0 hmem)

/-- C10 witness: a 65536-entry list and a single entry with a
65536-byte name both make `createZipBuffer` fail. -/
theorem claim_C10_witness :
    createZipBuffer (fun _ => none)
      (List.replicate 65536 (⟨[], [], false⟩ : ZipFile)) = none ∧
    createZipBuffer (fun _ => none)
      [⟨List.replicate 65536 0, [], false⟩] = none :=
  ⟨(claim_C10 (fun _ => none) _).1 (by rw [List.length_replicate]; omega),
   (claim_C10 (fun _ => none) _).2 ⟨List.replicate 65536 0, [], false⟩
     (List.mem_cons_self _ _)
     (by show (List.replicate 65536 (0 : Nat)).length > 65535
         rw [List.length_replicate]; omega)⟩

/-- C3: for every entry processed by `createZipBuffer`'s loop
(`processEntry` is the loop body), the entry is stored compressed if and
only if its compress flag is true and the deflated candidate is strictly
shorter than the payload; the compression-method field (offset 8 of the
local header, offset 10 of the central header) is 8 exactly in that case
and 0 otherwise, method 0 means the payload is stored verbatim, the
compressed-size field holds the stored length, the uncompressed-size
field the payload length, and stored length ≤ payload length always. -/
theorem claim_C3 (deflate : List Nat → Option (List Nat)) (off : Nat)
    (f : ZipFile) (lh fd ch : List Nat)
    (h : processEntry deflate off f = some (lh, fd, ch)) :
    (readUInt16LE lh 8 = 8 ∨ readUInt16LE lh 8 = 0) ∧
    readUInt16LE ch 10 = readUInt16LE lh 8 ∧
    (readUInt16LE lh 8 = 8 ↔
      f.compress = true ∧ ∃ comp, deflate f.data = some comp ∧
        comp.length < f.data.length ∧ fd = comp) ∧
    (readUInt16LE lh 8 = 0 → fd = f.data) ∧
    readUInt32LE lh 18 = fd.length ∧
    readUInt32LE lh 22 = f.data.length ∧
    fd.length ≤ f.data.length ∧
    (readUInt16LE lh 8 = 0 → fd.length = f.data.length) := by
  obtain ⟨comp, hm, hfd, hlh, hch, h1, h2, h3, h4⟩ := processEntry_some h
  subst hlh
  subst hch
  by_cases huse : f.compress = true ∧ comp.length < f.data.length
  · simp only [if_pos huse] at hfd ⊢
    have hl8 : readUInt16LE (mkLocalHeader 8 (crc32 f.data) fd.length
        f.data.length f.name) 8 = 8 :=
      localHeader_method _ _ _ _ _ (by norm_num)
    have hc10 : readUInt16LE (mkCentralHeader 8 (crc32 f.data) fd.length
        f.data.length f.name off) 10 = 8 :=
      centralHeader_method _ _ _ _ _ _ (by norm_num)
    rw [if_pos huse.1] at hm
    refine ⟨Or.inl hl8, by rw [hl8, hc10], ?_, ?_, ?_, ?_, ?_, ?_⟩
    · rw [hl8]
      exact ⟨fun _ => ⟨huse.1, comp, hm, huse.2, hfd⟩, fun _ => rfl⟩
    · rw [hl8]; omega
    · exact localHeader_csize _ _ _ _ _ h1
    · exact localHeader_usize _ _ _ _ _ h2
    · rw [hfd]; omega
    · rw [hl8]; omega
  · simp only [if_neg huse] at hfd ⊢
    have hl8 : readUInt16LE (mkLocalHeader 0 (crc32 f.data) fd.length
        f.data.length f.name) 8 = 0 :=
      localHeader_method _ _ _ _ _ (by norm_num)
    have hc10 : readUInt16LE (mkCentralHeader 0 (crc32 f.data) fd.length
        f.data.length f.name off) 10 = 0 :=
      centralHeader_method _ _ _ _ _ _ (by norm_num)
    refine ⟨Or.inr hl8, by rw [hl8, hc10], ?_, ?_, ?_, ?_, ?_, ?_⟩
    · rw [hl8]
      constructor
      · omega
      · rintro ⟨hcomp, comp', hd', hlt', -⟩
        rw [if_pos hcomp] at hm
        rw [hm] at hd'
        obtain rfl : comp' = comp := (Option.some.injEq _ _).mp hd'.symm
        exact absurd ⟨hcomp, hlt'⟩ huse
    · exact fun _ => hfd
    · exact localHeader_csize _ _ _ _ _ h1
    · exact localHeader_usize _ _ _ _ _ h2
    · rw [hfd]
    · intro _; rw [hfd]

/-- C3 witness: a compress-true entry whose 4-byte payload deflates to a
single byte is stored with method 8, stored length 1, payload length 4. -/
theorem claim_C3_witness :
    (readUInt16LE (mkLocalHeader 8 558161692 1 4 [97]) 8 = 8 ∨
      readUInt16LE (mkLocalHeader 8 558161692 1 4 [97]) 8 = 0) ∧
    readUInt16LE (mkCentralHeader 8 558161692 1 4 [97] 0) 10 =
      readUInt16LE (mkLocalHeader 8 558161692 1 4 [97]) 8 ∧
    (readUInt16LE (mkLocalHeader 8 558161692 1 4 [97]) 8 = 8 ↔
      (⟨[97], [0, 0, 0, 0], true⟩ : ZipFile).compress = true ∧
      ∃ comp, (fun l : List Nat => some (l.take 1)) [0, 0, 0, 0] = some comp ∧
        comp.length < (4 : Nat) ∧ [0] = comp) ∧
    (readUInt16LE (mkLocalHeader 8 558161692 1 4 [97]) 8 = 0 →
      ([0] : List Nat) = [0, 0, 0, 0]) ∧
    readUInt32LE (mkLocalHeader 8 558161692 1 4 [97]) 18 = 1 ∧
    readUInt32LE (mkLocalHeader 8 558161692 1 4 [97]) 22 = 4 ∧
    (1 : Nat) ≤ 4 ∧
    (readUInt16LE (mkLocalHeader 8 558161692 1 4 [97]) 8 = 0 → (1 : Nat) = 4) :=
  claim_C3 (fun l => some (l.take 1)) 0 ⟨[97], [0, 0, 0, 0], true⟩
    (mkLocalHeader 8 558161692 1 4 [97]) [0]
    (mkCentralHeader 8 558161692 1 4 [97] 0) (by decide)

/-- C4: the CRC-32 written at offset 14 of the local header and offset 16
of the central header is `crc32` of the original uncompressed payload,
whether or not the entry is stored compressed. -/
theorem claim_C4 (deflate : List Nat → Option (List Nat)) (off : Nat)
    (f : ZipFile) (lh fd ch : List Nat)
    (h : processEntry deflate off f = some (lh, fd, ch)) :
    readUInt32LE lh 14 = crc32 f.data ∧
    readUInt32LE ch 16 = crc32 f.data := by
  obtain ⟨comp, hm, hfd, hlh, hch, h1, h2, h3, h4⟩ := processEntry_some h
  subst hlh
  subst hch
  exact ⟨localHeader_crc _ _ _ _ _ (crc32_lt _),
    centralHeader_crc _ _ _ _ _ _ (crc32_lt _)⟩

/-- C4 witness: a concrete stored entry carries `crc32 [0]` in both
headers. -/
theorem claim_C4_witness :
    readUInt32LE (mkLocalHeader 0 3523407757 1 1 [97]) 14 = crc32 [0] ∧
    readUInt32LE (mkCentralHeader 0 3523407757 1 1 [97] 0) 16 = crc32 [0] :=
  claim_C4 (fun _ => none) 0 ⟨[97], [0], false⟩
    (mkLocalHeader 0 3523407757 1 1 [97]) [0]
    (mkCentralHeader 0 3523407757 1 1 [97] 0) (by decide)

/-! Loop invariant of `zipLoop` and inversion of `createZipBuffer`. -/

/-- Bytes one entry contributes to the local section: local header plus
stored data. -/
def entrySize (p : List Nat × List Nat) : Nat := p.1.length + p.2.length

/-- Byte position at which entry `i`'s local header starts inside the
local section (sum of the sizes of the preceding entries). -/
def prefixSize (pairs : List (List Nat × List Nat)) (i : Nat) : Nat :=
  ((pairs.take i).map entrySize).sum

theorem prefixSize_zero (ps : List (List Nat × List Nat)) :
    prefixSize ps 0 = 0 := rfl

theorem prefixSize_cons_succ (p : List Nat × List Nat)
    (ps : List (List Nat × List Nat)) (j : Nat) :
    prefixSize (p :: ps) (j + 1) = entrySize p + prefixSize ps j := by
  simp [prefixSize, List.take_succ_cons]

theorem prefixSize_succ (ps : List (List Nat × List Nat)) (i : Nat)
    (h : i < ps.length) :
    prefixSize ps (i + 1) = prefixSize ps i + entrySize (ps.getD i ([], [])) := by
  induction ps generalizing i with
  | nil => simp at h
  | cons p ps ih =>
    cases i with
    | zero => simp [prefixSize_cons_succ, prefixSize_zero]
    | succ j =>
      rw [prefixSize_cons_succ, prefixSize_cons_succ,
        ih j (by simpa using h), List.getD_cons_succ]
      omega

theorem flatten_decomp (ps : List (List Nat × List Nat)) :
    ∀ i, i < ps.length →
    ∃ A rest : List Nat, (ps.map fun p => p.1 ++ p.2).flatten =
      A ++ ((ps.getD i ([], [])).1 ++ ((ps.getD i ([], [])).2 ++ rest)) ∧
      A.length = prefixSize ps i := by
  induction ps with
  | nil => intro i hi; simp at hi
  | cons p ps ih =>
    intro i hi
    cases i with
    | zero =>
      refine ⟨[], (ps.map fun p => p.1 ++ p.2).flatten, ?_, rfl⟩
      simp [List.append_assoc]
    | succ j =>
      obtain ⟨A, rest, hdec, hlen⟩ := ih j (by simpa using hi)
      refine ⟨(p.1 ++ p.2) ++ A, rest, ?_, ?_⟩
      · simp only [List.map_cons, List.flatten_cons, hdec,
          List.getD_cons_succ, List.append_assoc]
      · simp only [List.length_append, hlen, prefixSize_cons_succ, entrySize]

theorem zipLoop_some {deflate : List Nat → Option (List Nat)} :
    ∀ (files : List ZipFile) (off0 : Nat)
      (pairs : List (List Nat × List Nat)) (centrals : List (List Nat))
      (fin : Nat),
    zipLoop deflate files off0 = some (pairs, centrals, fin) →
    pairs.length = files.length ∧ centrals.length = files.length ∧
    fin = off0 + (pairs.map entrySize).sum ∧
    ∀ i, i < files.length →
      processEntry deflate (off0 + prefixSize pairs i)
          (files.getD i ⟨[], [], false⟩) =
        some ((pairs.getD i ([], [])).1, (pairs.getD i ([], [])).2,
          centrals.getD i []) := by
  intro files
  induction files with
  | nil =>
    intro off0 pairs centrals fin h
    unfold zipLoop at h
    simp only [Option.some.injEq, Prod.mk.injEq] at h
    obtain ⟨hp, hc, hf⟩ := h
    subst hp; subst hc; subst hf
    exact ⟨rfl, rfl, by simp, fun i hi => absurd hi (by simp)⟩
  | cons g rest ih =>
    intro off0 pairs centrals fin h
    unfold zipLoop at h
    split at h
    next => exact Option.noConfusion h
    next lh fd ch hpe =>
      split at h
      next => exact Option.noConfusion h
      next pairs' centrals' fin' hz =>
        simp only [Option.some.injEq, Prod.mk.injEq] at h
        obtain ⟨hp, hc, hf⟩ := h
        subst hp; subst hc; subst hf
        obtain ⟨ih1, ih2, ih3, ih4⟩ := ih _ _ _ _ hz
        refine ⟨by simp [ih1], by simp [ih2], ?_, ?_⟩
        · rw [ih3]
          simp only [List.map_cons, List.sum_cons, entrySize]
          omega
        · intro i hi
          cases i with
          | zero =>
            simpa [prefixSize_zero] using hpe
          | succ j =>
            have hj : j < rest.length := by simpa using hi
            have hstep := ih4 j hj
            simp only [List.getD_cons_succ, prefixSize_cons_succ, entrySize]
            rw [show off0 + (lh.length + fd.length + prefixSize pairs' j) =
              off0 + (lh.length + fd.length) + prefixSize pairs' j by omega]
            exact hstep

theorem createZipBuffer_some {deflate : List Nat → Option (List Nat)}
    {files : List ZipFile} {out : List Nat}
    (h : createZipBuffer deflate files = some out) :
    ∃ (pairs : List (List Nat × List Nat)) (centrals : List (List Nat))
      (fin : Nat),
      zipLoop deflate files 0 = some (pairs, centrals, fin) ∧
      files.length < 2 ^ 16 ∧ (centrals.map List.length).sum < 2 ^ 32 ∧
      fin < 2 ^ 32 ∧
      out = (pairs.map fun p => p.1 ++ p.2).flatten ++ centrals.flatten ++
        mkEOCD files.length ((centrals.map List.length).sum) fin := by
  unfold createZipBuffer at h
  split at h
  next => exact Option.noConfusion h
  next pairs centrals fin hz =>
    split at h
    next hg =>
      exact ⟨pairs, centrals, fin, hz, hg.1, hg.2.1, hg.2.2,
        ((Option.some.injEq _ _).mp h).symm⟩
    next => exact Option.noConfusion h

theorem eocd_sig (cnt cs co : Nat) :
    readUInt32LE (mkEOCD cnt cs co) 0 = 0x06054b50 := by
  have h0 : readUInt32LE (mkEOCD cnt cs co) 0 =
      80 + 256 * 75 + 65536 * 5 + 16777216 * 6 := by rw [eocd_eq]; rfl
  omega

theorem eocd_disk4 (cnt cs co : Nat) : readUInt16LE (mkEOCD cnt cs co) 4 = 0 := by
  have h0 : readUInt16LE (mkEOCD cnt cs co) 4 = 0 + 256 * 0 := by
    rw [eocd_eq]; rfl
  omega

theorem eocd_disk6 (cnt cs co : Nat) : readUInt16LE (mkEOCD cnt cs co) 6 = 0 := by
  have h0 : readUInt16LE (mkEOCD cnt cs co) 6 = 0 + 256 * 0 := by
    rw [eocd_eq]; rfl
  omega

theorem eocd_count8 (cnt cs co : Nat) (h : cnt < 2 ^ 16) :
    readUInt16LE (mkEOCD cnt cs co) 8 = cnt := by
  have h0 : readUInt16LE (mkEOCD cnt cs co) 8 =
      cnt % 256 + 256 * (cnt / 256 % 256) := by rw [eocd_eq]; rfl
  omega

theorem eocd_count10 (cnt cs co : Nat) (h : cnt < 2 ^ 16) :
    readUInt16LE (mkEOCD cnt cs co) 10 = cnt := by
  have h0 : readUInt16LE (mkEOCD cnt cs co) 10 =
      cnt % 256 + 256 * (cnt / 256 % 256) := by rw [eocd_eq]; rfl
  omega

theorem eocd_csize12 (cnt cs co : Nat) (h : cs < 2 ^ 32) :
    readUInt32LE (mkEOCD cnt cs co) 12 = cs := by
  have h0 : readUInt32LE (mkEOCD cnt cs co) 12 =
      cs % 256 + 256 * (cs / 256 % 256) + 65536 * (cs / 65536 % 256) +
        16777216 * (cs / 16777216 % 256) := by rw [eocd_eq]; rfl
  omega

theorem eocd_coff16 (cnt cs co : Nat) (h : co < 2 ^ 32) :
    readUInt32LE (mkEOCD cnt cs co) 16 = co := by
  have h0 : readUInt32LE (mkEOCD cnt cs co) 16 =
      co % 256 + 256 * (co / 256 % 256) + 65536 * (co / 65536 % 256) +
        16777216 * (co / 16777216 % 256) := by rw [eocd_eq]; rfl
  omega

theorem eocd_comment20 (cnt cs co : Nat) :
    readUInt16LE (mkEOCD cnt cs co) 20 = 0 := by
  have h0 : readUInt16LE (mkEOCD cnt cs co) 20 = 0 + 256 * 0 := by
    rw [eocd_eq]; rfl
  omega

theorem flatten_pairs_length (ps : List (List Nat × List Nat)) :
    ((ps.map fun p => p.1 ++ p.2).flatten).length = (ps.map entrySize).sum := by
  induction ps with
  | nil => rfl
  | cons p ps ih => simp [entrySize, ih]; omega

theorem flatten_centrals_length (cs : List (List Nat)) :
    cs.flatten.length = (cs.map List.length).sum := by
  induction cs with
  | nil => rfl
  | cons c cs ih => simp [ih]

/-- C6: a successful `createZipBuffer` output is exactly the local
(header, stored bytes) pairs in entry order, then the central directory
headers in entry order, then one 22-byte end-of-central-directory record
with signature `0x06054b50`, disk numbers 0, both entry counts equal to
the number of entries, central-directory size equal to the total central
header length, central-directory offset equal to the byte length of the
local section, and comment length 0. -/
theorem claim_C6 (deflate : List Nat → Option (List Nat))
    (files : List ZipFile) (out : List Nat)
    (pairs : List (List Nat × List Nat)) (centrals : List (List Nat))
    (fin : Nat)
    (hz : zipLoop deflate files 0 = some (pairs, centrals, fin))
    (h : createZipBuffer deflate files = some out) :
    ∃ eocd : List Nat,
      out = (pairs.map fun p => p.1 ++ p.2).flatten ++ centrals.flatten ++
          eocd ∧
      eocd = mkEOCD files.length ((centrals.map List.length).sum) fin ∧
      eocd.length = 22 ∧
      readUInt32LE eocd 0 = 0x06054b50 ∧
      readUInt16LE eocd 4 = 0 ∧
      readUInt16LE eocd 6 = 0 ∧
      readUInt16LE eocd 8 = files.length ∧
      readUInt16LE eocd 10 = files.length ∧
      readUInt32LE eocd 12 = centrals.flatten.length ∧
      readUInt32LE eocd 16 = ((pairs.map fun p => p.1 ++ p.2).flatten).length ∧
      readUInt16LE eocd 20 = 0 ∧
      pairs.length = files.length ∧ centrals.length = files.length ∧
      ∀ i, i < files.length →
        processEntry deflate (prefixSize pairs i)
            (files.getD i ⟨[], [], false⟩) =
          some ((pairs.getD i ([], [])).1, (pairs.getD i ([], [])).2,
            centrals.getD i []) := by
  obtain ⟨pairs', centrals', fin', hz', hcnt, hcs, hco, hout⟩ :=
    createZipBuffer_some h
  rw [hz] at hz'
  simp only [Option.some.injEq, Prod.mk.injEq] at hz'
  obtain ⟨hp, hc, hf⟩ := hz'
  subst hp; subst hc; subst hf
  obtain ⟨l1, l2, l3, l4⟩ := zipLoop_some files 0 pairs centrals fin hz
  refine ⟨mkEOCD files.length ((centrals.map List.length).sum) fin,
    hout, rfl, eocd_length _ _ _, eocd_sig _ _ _, eocd_disk4 _ _ _,
    eocd_disk6 _ _ _, eocd_count8 _ _ _ hcnt, eocd_count10 _ _ _ hcnt,
    ?_, ?_, eocd_comment20 _ _ _, l1, l2, ?_⟩
  · rw [eocd_csize12 _ _ _ hcs, flatten_centrals_length]
  · rw [eocd_coff16 _ _ _ hco, flatten_pairs_length]
    omega
  · intro i hi
    have := l4 i hi
    simpa using this

/-- C5: for every successful archive and every entry index `i`, the
4-byte local-header-offset field (offset 42 of the i-th central
directory header) equals the byte position at which the i-th local file
header begins in the output (0 for the first entry, previous offset plus
30 + name length + stored length for each subsequent one), and the local
header found at that position carries exactly the same name,
compressed-size and uncompressed-size fields as the central header. -/
theorem claim_C5 (deflate : List Nat → Option (List Nat))
    (files : List ZipFile) (out : List Nat)
    (pairs : List (List Nat × List Nat)) (centrals : List (List Nat))
    (fin : Nat)
    (hz : zipLoop deflate files 0 = some (pairs, centrals, fin))
    (h : createZipBuffer deflate files = some out)
    (i : Nat) (hi : i < files.length) :
    ∃ (lh fd ch rest : List Nat),
      pairs.getD i ([], []) = (lh, fd) ∧
      centrals.getD i [] = ch ∧
      lh.length = 30 + (files.getD i ⟨[], [], false⟩).name.length ∧
      readUInt32LE ch 42 = prefixSize pairs i ∧
      prefixSize pairs 0 = 0 ∧
      prefixSize pairs (i + 1) = prefixSize pairs i + (lh.length + fd.length) ∧
      out.drop (prefixSize pairs i) = lh ++ (fd ++ rest) ∧
      readUInt16LE lh 26 = readUInt16LE ch 28 ∧
      readUInt32LE lh 18 = readUInt32LE ch 20 ∧
      readUInt32LE lh 22 = readUInt32LE ch 24 ∧
      lh.drop 30 = (files.getD i ⟨[], [], false⟩).name ∧
      ch.drop 46 = (files.getD i ⟨[], [], false⟩).name := by
  obtain ⟨pairs', centrals', fin', hz', hcnt, hcs, hco, hout⟩ :=
    createZipBuffer_some h
  rw [hz] at hz'
  simp only [Option.some.injEq, Prod.mk.injEq] at hz'
  obtain ⟨hp, hc, hf⟩ := hz'
  subst hp; subst hc; subst hf
  obtain ⟨l1, l2, l3, l4⟩ := zipLoop_some files 0 pairs centrals fin hz
  have hi' : i < pairs.length := by omega
  have hpe := l4 i hi
  obtain ⟨comp, hm, hfd, hlh, hch, b1, b2, b3, b4⟩ := processEntry_some hpe
  obtain ⟨A, restJ, hdec, hlen⟩ := flatten_decomp pairs i hi'
  refine ⟨(pairs.getD i ([], [])).1, (pairs.getD i ([], [])).2,
    centrals.getD i [],
    restJ ++ (centrals.flatten ++
      mkEOCD files.length ((centrals.map List.length).sum) fin),
    rfl, rfl, ?_, ?_, prefixSize_zero pairs, ?_, ?_, ?_, ?_, ?_, ?_, ?_⟩
  · rw [hlh, localHeader_length]
  · rw [hch, centralHeader_offset _ _ _ _ _ _ b4]
    omega
  · rw [prefixSize_succ pairs i hi']
    rfl
  · rw [hout, hdec, ← hlen]
    simp only [List.append_assoc]
    exact List.drop_left _ _
  · rw [hlh, hch, localHeader_namelen _ _ _ _ _ b3,
      centralHeader_namelen _ _ _ _ _ _ b3]
  · rw [hlh, hch, localHeader_csize _ _ _ _ _ b1,
      centralHeader_csize _ _ _ _ _ _ b1]
  · rw [hlh, hch, localHeader_usize _ _ _ _ _ b2,
      centralHeader_usize _ _ _ _ _ _ b2]
  · rw [hlh, localHeader_name]
  · rw [hch, centralHeader_name]

/-- UTF-8 bytes of the entry name `"mimetype"`. -/
def mimetypeName : List Nat := [109, 105, 109, 101, 116, 121, 112, 101]

/-- ASCII bytes of the payload `"application/epub+zip"`. -/
def epubMime : List Nat :=
  [97, 112, 112, 108, 105, 99, 97, 116, 105, 111, 110, 47,
   101, 112, 117, 98, 43, 122, 105, 112]

/-- C7: when the first entry is the uncompressed `mimetype` entry with
payload `application/epub+zip`, the output starts at offset 0 with that
entry's local header (signature `0x04034b50`, method 0, compressed and
uncompressed sizes both 20), the header is 38 bytes (30 fixed plus the
8-byte name), and the 20 bytes that follow it are the literal payload. -/
theorem claim_C7 (deflate : List Nat → Option (List Nat))
    (rest : List ZipFile) (out : List Nat)
    (h : createZipBuffer deflate
      (⟨mimetypeName, epubMime, false⟩ :: rest) = some out) :
    out.take 38 = mkLocalHeader 0 (crc32 epubMime) 20 20 mimetypeName ∧
    readUInt32LE out 0 = 0x04034b50 ∧
    readUInt16LE out 8 = 0 ∧
    readUInt32LE out 18 = 20 ∧
    readUInt32LE out 22 = 20 ∧
    (out.drop 38).take 20 = epubMime := by
  obtain ⟨pairs, centrals, fin, hz, hcnt, hcs, hco, hout⟩ :=
    createZipBuffer_some h
  obtain ⟨l1, l2, l3, l4⟩ := zipLoop_some _ 0 pairs centrals fin hz
  have hi : 0 < ((⟨mimetypeName, epubMime, false⟩ : ZipFile) :: rest).length := by
    simp
  have hpe := l4 0 hi
  rw [prefixSize_zero] at hpe
  obtain ⟨comp, hm, hfd, hlh, hch, b1, b2, b3, b4⟩ := processEntry_some hpe
  -- the first entry's compress flag is false, so the stored bytes are the
  -- payload and the method is 0 (all by definitional reduction)
  have hfdE : (pairs.getD 0 ([], [])).2 = epubMime := hfd
  have hlhE : (pairs.getD 0 ([], [])).1 =
      mkLocalHeader 0 (crc32 epubMime) ((pairs.getD 0 ([], [])).2).length
        epubMime.length mimetypeName := hlh
  have hfd20 : ((pairs.getD 0 ([], [])).2).length = 20 := by
    rw [hfdE]; rfl
  have hlh' : (pairs.getD 0 ([], [])).1 =
      mkLocalHeader 0 (crc32 epubMime) 20 20 mimetypeName := by
    rw [hlhE, hfd20]; rfl
  have hlh38 : ((pairs.getD 0 ([], [])).1).length = 38 := by
    rw [hlh', localHeader_length]; rfl
  obtain ⟨A, restJ, hdec, hlen⟩ := flatten_decomp pairs 0 (by omega)
  rw [prefixSize_zero] at hlen
  have hA : A = [] := List.eq_nil_of_length_eq_zero hlen
  subst hA
  have hout2 : out = (pairs.getD 0 ([], [])).1 ++
      ((pairs.getD 0 ([], [])).2 ++ (restJ ++ (centrals.flatten ++
        mkEOCD ((⟨mimetypeName, epubMime, false⟩ : ZipFile) :: rest).length
          ((centrals.map List.length).sum) fin))) := by
    rw [hout, hdec]
    simp [List.append_assoc]
  have htake : out.take 38 = (pairs.getD 0 ([], [])).1 := by
    rw [hout2, ← hlh38]
    exact List.take_left _ _
  refine ⟨by rw [htake, hlh'], ?_, ?_, ?_, ?_, ?_⟩
  · rw [hout2, readUInt32LE_append_left _ _ 0 (by omega), hlh', localHeader_sig]
  · rw [hout2, readUInt16LE_append_left _ _ 8 (by omega), hlh',
      localHeader_method _ _ _ _ _ (by norm_num)]
  · rw [hout2, readUInt32LE_append_left _ _ 18 (by omega), hlh',
      localHeader_csize _ _ _ _ _ (by norm_num)]
  · rw [hout2, readUInt32LE_append_left _ _ 22 (by omega), hlh',
      localHeader_usize _ _ _ _ _ (by norm_num)]
  · have hdrop : out.drop 38 = (pairs.getD 0 ([], [])).2 ++
        (restJ ++ (centrals.flatten ++
          mkEOCD ((⟨mimetypeName, epubMime, false⟩ : ZipFile) :: rest).length
            ((centrals.map List.length).sum) fin)) := by
      rw [hout2, ← hlh38]
      exact List.drop_left _ _
    rw [hdrop, ← hfd20]
    rw [List.take_left, hfdE]

/-! Concrete single-entry archive used to witness the structural claims:
the entry has name `"a"` (byte 97), empty payload and no compression. -/

/-- Witness entry: name `"a"`, empty payload, compress off. -/
def wFile : ZipFile := ⟨[97], [], false⟩

/-- Local file header of the witness entry. -/
def wLocal : List Nat :=
  [80, 75, 3, 4, 20, 0, 0, 0, 0, 0, 0, 0, 0, 0, 0, 0, 0, 0, 0, 0,
   0, 0, 0, 0, 0, 0, 1, 0, 0, 0, 97]

/-- Central directory header of the witness entry. -/
def wCentral : List Nat :=
  [80, 75, 1, 2, 20, 0, 20, 0, 0, 0, 0, 0, 0, 0, 0, 0, 0, 0, 0, 0,
   0, 0, 0, 0, 0, 0, 0, 0, 1, 0, 0, 0, 0, 0, 0, 0, 0, 0, 0, 0, 0, 0,
   0, 0, 0, 0, 97]

/-- Full archive produced for the witness entry. -/
def wOut : List Nat :=
  [80, 75, 3, 4, 20, 0, 0, 0, 0, 0, 0, 0, 0, 0, 0, 0, 0, 0, 0, 0,
   0, 0, 0, 0, 0, 0, 1, 0, 0, 0, 97,
   80, 75, 1, 2, 20, 0, 20, 0, 0, 0, 0, 0, 0, 0, 0, 0, 0, 0, 0, 0,
   0, 0, 0, 0, 0, 0, 0, 0, 1, 0, 0, 0, 0, 0, 0, 0, 0, 0, 0, 0, 0, 0,
   0, 0, 0, 0, 97,
   80, 75, 5, 6, 0, 0, 0, 0, 1, 0, 1, 0, 47, 0, 0, 0, 31, 0, 0, 0, 0, 0]

/-- C5 witness: the structural offset facts at entry 0 of the concrete
single-entry archive. -/
theorem claim_C5_witness :
    ∃ (lh fd ch rest : List Nat),
      ([(wLocal, ([] : List Nat))].getD 0 ([], [])) = (lh, fd) ∧
      ([wCentral].getD 0 []) = ch ∧
      lh.length = 30 + ([wFile].getD 0 ⟨[], [], false⟩).name.length ∧
      readUInt32LE ch 42 = prefixSize [(wLocal, [])] 0 ∧
      prefixSize [(wLocal, [])] 0 = 0 ∧
      prefixSize [(wLocal, [])] 1 = prefixSize [(wLocal, [])] 0 +
        (lh.length + fd.length) ∧
      wOut.drop (prefixSize [(wLocal, [])] 0) = lh ++ (fd ++ rest) ∧
      readUInt16LE lh 26 = readUInt16LE ch 28 ∧
      readUInt32LE lh 18 = readUInt32LE ch 20 ∧
      readUInt32LE lh 22 = readUInt32LE ch 24 ∧
      lh.drop 30 = ([wFile].getD 0 ⟨[], [], false⟩).name ∧
      ch.drop 46 = ([wFile].getD 0 ⟨[], [], false⟩).name :=
  claim_C5 (fun _ => none) [wFile] wOut [(wLocal, [])] [wCentral] 31
    (by decide) (by decide) 0 (by decide)

/-- C6 witness: the full-layout facts of the concrete single-entry
archive. -/
theorem claim_C6_witness :
    ∃ eocd : List Nat,
      wOut = ([(wLocal, ([] : List Nat))].map fun p => p.1 ++ p.2).flatten ++
          [wCentral].flatten ++ eocd ∧
      eocd = mkEOCD [wFile].length (([wCentral].map List.length).sum) 31 ∧
      eocd.length = 22 ∧
      readUInt32LE eocd 0 = 0x06054b50 ∧
      readUInt16LE eocd 4 = 0 ∧
      readUInt16LE eocd 6 = 0 ∧
      readUInt16LE eocd 8 = [wFile].length ∧
      readUInt16LE eocd 10 = [wFile].length ∧
      readUInt32LE eocd 12 = [wCentral].flatten.length ∧
      readUInt32LE eocd 16 =
        (([(wLocal, ([] : List Nat))].map fun p => p.1 ++ p.2).flatten).length ∧
      readUInt16LE eocd 20 = 0 ∧
      [(wLocal, ([] : List Nat))].length = [wFile].length ∧
      [wCentral].length = [wFile].length ∧
      ∀ i, i < [wFile].length →
        processEntry (fun _ => none) (prefixSize [(wLocal, [])] i)
            ([wFile].getD i ⟨[], [], false⟩) =
          some (([(wLocal, ([] : List Nat))].getD i ([], [])).1,
            ([(wLocal, ([] : List Nat))].getD i ([], [])).2,
            [wCentral].getD i []) :=
  claim_C6 (fun _ => none) [wFile] wOut [(wLocal, [])] [wCentral] 31
    (by decide) (by decide)

/-- Archive produced for the single uncompressed `mimetype` entry. -/
def wMimeOut : List Nat :=
  [80, 75, 3, 4, 20, 0, 0, 0, 0, 0, 0, 0, 0, 0, 111, 97, 171, 44,
   20, 0, 0, 0, 20, 0, 0, 0, 8, 0, 0, 0,
   109, 105, 109, 101, 116, 121, 112, 101,
   97, 112, 112, 108, 105, 99, 97, 116, 105, 111, 110, 47,
   101, 112, 117, 98, 43, 122, 105, 112,
   80, 75, 1, 2, 20, 0, 20, 0, 0, 0, 0, 0, 0, 0, 0, 0, 111, 97, 171, 44,
   20, 0, 0, 0, 20, 0, 0, 0, 8, 0, 0, 0, 0, 0, 0, 0, 0, 0, 0, 0, 0, 0,
   0, 0, 0, 0,
   109, 105, 109, 101, 116, 121, 112, 101,
   80, 75, 5, 6, 0, 0, 0, 0, 1, 0, 1, 0, 54, 0, 0, 0, 58, 0, 0, 0, 0, 0]

/-- C7 witness: the archive of the single `mimetype` entry starts with
its 38-byte local header and the literal uncompressed payload. -/
theorem claim_C7_witness :
    wMimeOut.take 38 = mkLocalHeader 0 (crc32 epubMime) 20 20 mimetypeName ∧
    readUInt32LE wMimeOut 0 = 0x04034b50 ∧
    readUInt16LE wMimeOut 8 = 0 ∧
    readUInt32LE wMimeOut 18 = 20 ∧
    readUInt32LE wMimeOut 22 = 20 ∧
    (wMimeOut.drop 38).take 20 = epubMime :=
  claim_C7 (fun _ => none) [] wMimeOut (by decide)

end Noatboat
